import Mathlib

/-!
Shallow embedding of the go-pushbullet client (pushbullet.go), together with
the Go standard-library routines its observable behaviour depends on:
percent-encoding of userinfo and of query components, url.Values encoding and
query parsing, and standard base64. Go strings are byte sequences, modelled
as lists of naturals below 256.
-/

/-- A Go string, as its byte sequence. -/
abbrev Str := List Nat

/-- Byte sequence of an ASCII Lean string literal. -/
def bytes (s : String) : Str := s.data.map Char.toNat

/-- All bytes of a Go string are below 256. -/
abbrev ValidBytes (s : Str) : Prop := ∀ c ∈ s, c < 256

/-- Upper-case hexadecimal digit for a value below 16 (Go uses the
alphabet 0123456789ABCDEF when percent-escaping). -/
def hexDigitUpper (n : Nat) : Nat := if n < 10 then 48 + n else 55 + n

/-- Value of a hexadecimal digit byte (Go url.unhex, both letter cases). -/
def hexVal (c : Nat) : Option Nat :=
  if 48 ≤ c ∧ c ≤ 57 then some (c - 48)
  else if 97 ≤ c ∧ c ≤ 102 then some (c - 87)
  else if 65 ≤ c ∧ c ≤ 70 then some (c - 55)
  else none

/-- Digit of the standard base64 alphabet (Go base64.StdEncoding). -/
def b64digit (n : Nat) : Nat :=
  if n < 26 then 65 + n
  else if n < 52 then 97 + (n - 26)
  else if n < 62 then 48 + (n - 52)
  else if n = 62 then 43 else 47

/-- Standard base64 with padding (Go base64.StdEncoding.EncodeToString). -/
def base64Encode : List Nat → Str
  | b1 :: b2 :: b3 :: rest =>
      b64digit (b1 / 4) :: b64digit (b1 % 4 * 16 + b2 / 16) ::
        b64digit (b2 % 16 * 4 + b3 / 64) :: b64digit (b3 % 64) :: base64Encode rest
  | [b1, b2] => [b64digit (b1 / 4), b64digit (b1 % 4 * 16 + b2 / 16), b64digit (b2 % 16 * 4), 61]
  | [b1] => [b64digit (b1 / 4), b64digit (b1 % 4 * 16), 61, 61]
  | [] => []

/-- A decimal-digit byte. -/
def digitByte (c : Nat) : Bool := 48 ≤ c && c ≤ 57

/-- An ASCII letter byte, either case. -/
def letterByte (c : Nat) : Bool := (65 ≤ c && c ≤ 90) || (97 ≤ c && c ≤ 122)

/-- A mark byte: hyphen, underscore, dot or tilde (never escaped by Go). -/
def markByte (c : Nat) : Bool := c == 45 || c == 95 || c == 46 || c == 126

/-- Byte left unescaped by Go percent-encoding of userinfo (url.shouldEscape
in user-password mode is false): alphanumerics, the marks, and the reserved
bytes dollar, ampersand, plus, comma, semicolon, equals. -/
def userinfoUnescaped (c : Nat) : Bool :=
  digitByte c || letterByte c || markByte c ||
    c == 36 || c == 38 || c == 43 || c == 44 || c == 59 || c == 61

/-- Go url.escape of one byte in userinfo mode (space is not special there). -/
def userinfoEscapeByte (c : Nat) : Str :=
  if userinfoUnescaped c then [c] else [37, hexDigitUpper (c / 16), hexDigitUpper (c % 16)]

/-- Go url.UserPassword with an empty password, rendered by Userinfo.String:
the percent-escaped key, then a colon, then the escaped empty password. -/
def userinfoString (key : Str) : Str := (key.flatMap userinfoEscapeByte) ++ [58]

/-- Byte left unescaped by Go QueryEscape: alphanumerics and the marks only. -/
def queryUnescapedByte (c : Nat) : Bool := digitByte c || letterByte c || markByte c

/-- Go url.escape of one byte in query-component mode: space becomes a plus,
any other escaped byte becomes a percent triple. -/
def queryEscapeByte (c : Nat) : Str :=
  if queryUnescapedByte c then [c]
  else if c = 32 then [43]
  else [37, hexDigitUpper (c / 16), hexDigitUpper (c % 16)]

/-- Go url.QueryEscape over the bytes of a string. -/
def queryEscape : Str → Str
  | [] => []
  | c :: cs => queryEscapeByte c ++ queryEscape cs

/-- Go url.QueryUnescape: a percent triple decodes to a byte, a plus decodes
to a space, any other byte is kept; a malformed percent escape is an error. -/
def queryUnescape : Str → Option Str
  | [] => some []
  | c :: rest =>
    if c = 37 then
      match rest with
      | h1 :: h2 :: rest2 =>
        match hexVal h1, hexVal h2 with
        | some a, some b => (queryUnescape rest2).map fun r => (16 * a + b) :: r
        | _, _ => none
      | _ => none
    else if c = 43 then (queryUnescape rest).map fun r => 32 :: r
    else (queryUnescape rest).map fun r => c :: r

/-- Go url.Values: a finite map from field name to a list of values, as an
association list carrying one entry per key. -/
abbrev Values := List (Str × List Str)

/-- Every key and every value of the map is a byte string. -/
abbrev ValidValues (v : Values) : Prop :=
  ∀ p ∈ v, ValidBytes p.1 ∧ ∀ x ∈ p.2, ValidBytes x

/-- Go Values.Set: replace the binding of a key by a single value. -/
def valuesSet (v : Values) (k : Str) (x : Str) : Values :=
  (v.filter fun p => !(p.1 == k)) ++ [(k, [x])]

/-- Byte-wise lexicographic strict order on strings (Go string comparison). -/
def lexLt : Str → Str → Bool
  | a :: as, b :: bs =>
    if a < b then true
    else if b < a then false
    else lexLt as bs
  | [], [] => false
  | [], _ :: _ => true
  | _ :: _, [] => false

/-- Insert one entry into a list of entries ordered by key. -/
def insertByKey (p : Str × List Str) : Values → Values
  | [] => [p]
  | q :: qs => if lexLt q.1 p.1 then q :: insertByKey p qs else p :: q :: qs

/-- Sort the entries by key (Go Values.Encode sorts the map keys). -/
def sortValues : Values → Values
  | [] => []
  | p :: ps => insertByKey p (sortValues ps)

/-- One key/value pair per value, entries in order, values in slice order. -/
def flatPairs : Values → List (Str × Str)
  | [] => []
  | p :: ps => (p.2.map fun x => (p.1, x)) ++ flatPairs ps

/-- Serialisation of one pair: escaped key, equals sign, escaped value. -/
def encodePair (p : Str × Str) : Str := queryEscape p.1 ++ 61 :: queryEscape p.2

/-- Join strings with a separator between consecutive elements. -/
def joinSep (sep : Str) : List Str → Str
  | [] => []
  | [x] => x
  | x :: y :: xs => x ++ sep ++ joinSep sep (y :: xs)

/-- Go Values.Encode: keys sorted, each key's values in order, one
key=value segment per value, ampersands between segments. -/
def encodeValues (v : Values) : Str :=
  joinSep [38] ((flatPairs (sortValues v)).map encodePair)

/-- Split a byte string at every occurrence of a separator byte. -/
def splitOnByte (c : Nat) : Str → List Str
  | [] => [[]]
  | x :: xs =>
    if x = c then [] :: splitOnByte c xs
    else
      match splitOnByte c xs with
      | [] => [[x]]
      | s :: ss => (x :: s) :: ss

/-- Go strings.Cut at the first occurrence of a byte. -/
def cutByte (c : Nat) : Str → Str × Str × Bool
  | [] => ([], [], false)
  | x :: xs =>
    if x = c then ([], xs, true)
    else
      let r := cutByte c xs
      (x :: r.1, r.2.1, r.2.2)

/-- Decode one key=value segment of a query string. -/
def decodeSegment (seg : Str) : Option (Str × Str) :=
  let r := cutByte 61 seg
  match queryUnescape r.1, queryUnescape r.2.1 with
  | some k, some x => some (k, x)
  | _, _ => none

/-- Decode a list of segments, skipping empty ones; a raw semicolon or a
malformed escape is an error. -/
def decodeSegs : List Str → Option (List (Str × Str))
  | [] => some []
  | seg :: rest =>
    if seg = [] then decodeSegs rest
    else if seg.any fun c => c == 59 then none
    else
      match decodeSegment seg with
      | some p => (decodeSegs rest).map fun l => p :: l
      | none => none

/-- Go url.ParseQuery, as the sequence of key/value pairs it reads off the
string (ParseQuery then folds that sequence into a map keyed by name). -/
def decodeQuery (s : Str) : Option (List (Str × Str)) := decodeSegs (splitOnByte 38 s)

/-- Decimal digits of a natural number, recursion bounded by a fuel that the
wrapper always supplies in excess (a number has at most n + 1 digits). -/
def natDecimalAux : Nat → Nat → Str
  | 0, _ => []
  | f + 1, n =>
    if n < 10 then [48 + n]
    else natDecimalAux f (n / 10) ++ [48 + n % 10]

/-- Decimal digits of a natural number. -/
def natDecimal (n : Nat) : Str := natDecimalAux (n + 1) n

/-- Go strconv.Itoa. -/
def itoa (i : Int) : Str :=
  if i < 0 then 45 :: natDecimal i.natAbs else natDecimal i.natAbs

/-- The observable parts of the http.Request that buildRequest constructs. -/
structure Request where
  method : Str
  url : Str
  authorization : Str
  contentType : Option Str
  body : Option Str
deriving DecidableEq

/-- The fixed API base URL. -/
def HOST : Str := bytes "https://api.pushbullet.com/api"

/-- Client.buildRequest: a GET to HOST ++ endpoint carrying basic auth built
from the percent-encoded userinfo of the key; when form data is present the
method turns POST, the form content type is set and the body is the encoded
data. -/
def buildRequest (key : Str) (endpoint : Str) (data : Option Values) : Request :=
  let base : Request :=
    { method := bytes "GET"
      url := HOST ++ endpoint
      authorization := bytes "Basic " ++ base64Encode (userinfoString key)
      contentType := none
      body := none }
  match data with
  | none => base
  | some d =>
    { base with
      method := bytes "POST"
      contentType := some (bytes "application/x-www-form-urlencoded")
      body := some (encodeValues d) }

/-- A Device as decoded from the devices response. -/
structure Device where
  id : Int
  ownerName : Str
  manufacturer : Str
  model : Str
  androidVersion : Str
  sdkVersion : Str
  appVersion : Int
  nickname : Str
deriving DecidableEq

/-- The decoded shape of a well-formed devices response body. -/
structure DeviceResponse where
  devices : List Device
  sharedDevices : List Device
deriving DecidableEq

/-- A devices response body: either malformed (json decoding fails with the
given message) or well formed. -/
inductive DevBody
  | malformed (e : Str)
  | wellFormed (r : DeviceResponse)
deriving DecidableEq

/-- Outcome of the underlying http round trip for Devices. -/
inductive DevicesHttp
  | transportFail (e : Str)
  | response (status : Nat) (statusText : Str) (body : DevBody)
deriving DecidableEq

/-- Outcome of the underlying http round trip for Push (body is ignored). -/
inductive PushHttp
  | transportFail (e : Str)
  | response (status : Nat) (statusText : Str)
deriving DecidableEq

/-- The three error shapes the client returns: the transport error verbatim,
errors.New of the response status text, or the json decoder error. -/
inductive PBErr
  | transport (e : Str)
  | api (statusText : Str)
  | decode (e : Str)
deriving DecidableEq

/-- Client.Devices, given the http outcome: its two Go return values, the
device slice (nil as none) and the error (nil as none). -/
def Devices (h : DevicesHttp) : Option (List Device) × Option PBErr :=
  match h with
  | .transportFail e => (none, some (.transport e))
  | .response status statusText body =>
    if status ≠ 200 then (none, some (.api statusText))
    else
      match body with
      | .malformed e => (none, some (.decode e))
      | .wellFormed r => (some (r.devices ++ r.sharedDevices), none)

/-- The device_id augmentation Push applies to its data before building the
request: for the sentinel 0 the data is untouched, otherwise device_id is
set to the decimal rendering of the id. -/
def goAugment (deviceId : Int) (d : Values) : Values :=
  if deviceId = 0 then d else valuesSet d (bytes "device_id") (itoa deviceId)

/-- Client.Push, request side: the request handed to the transport. Go maps
are references, so with a nonzero deviceId data.Set writes into the caller's
map; writing into a nil map (none) panics, modelled as none. -/
def Push (key : Str) (deviceId : Int) (data : Option Values) : Option Request :=
  match data with
  | none =>
    if deviceId = 0 then some (buildRequest key (bytes "/pushes") none) else none
  | some d => some (buildRequest key (bytes "/pushes") (some (goAugment deviceId d)))

/-- The caller's data map after Push returns (Go map aliasing: Push mutates
the very map it was handed). -/
def pushDataAfter (deviceId : Int) (d : Values) : Values := goAugment deviceId d

/-- Client.Push, response side: the error Push returns for an http outcome. -/
def pushOutcome (h : PushHttp) : Option PBErr :=
  match h with
  | .transportFail e => some (.transport e)
  | .response status statusText => if status ≠ 200 then some (.api statusText) else none

/-- Client.PushToAll. -/
def PushToAll (key : Str) (data : Option Values) : Option Request := Push key 0 data

/-- Client.PushNote. -/
def PushNote (key : Str) (deviceId : Int) (title body : Str) : Option Request :=
  Push key deviceId
    (some [(bytes "type", [bytes "note"]), (bytes "title", [title]), (bytes "body", [body])])

/-- Client.PushNoteToAll. -/
def PushNoteToAll (key : Str) (title body : Str) : Option Request :=
  PushNote key 0 title body

/-- Client.PushAddress. -/
def PushAddress (key : Str) (deviceId : Int) (name address : Str) : Option Request :=
  Push key deviceId
    (some [(bytes "type", [bytes "address"]), (bytes "name", [name]), (bytes "address", [address])])

/-- Client.PushAddressToAll. -/
def PushAddressToAll (key : Str) (name address : Str) : Option Request :=
  PushAddress key 0 name address

/-- Client.PushList. -/
def PushList (key : Str) (deviceId : Int) (title : Str) (items : List Str) : Option Request :=
  Push key deviceId
    (some [(bytes "type", [bytes "list"]), (bytes "title", [title]), (bytes "items", items)])

/-- Client.PushListToAll. -/
def PushListToAll (key : Str) (title : Str) (items : List Str) : Option Request :=
  PushList key 0 title items

/-- Client.PushLink. -/
def PushLink (key : Str) (deviceId : Int) (title u : Str) : Option Request :=
  Push key deviceId
    (some [(bytes "type", [bytes "link"]), (bytes "title", [title]), (bytes "url", [u])])

/-- Client.PushLinkToAll. -/
def PushLinkToAll (key : Str) (title u : Str) : Option Request :=
  PushLink key 0 title u

/-! ### Byte-level facts about the query escaping -/

theorem hexVal_hexDigitUpper : ∀ n, n < 16 → hexVal (hexDigitUpper n) = some n := by decide

set_option maxRecDepth 4096 in
theorem qeByte_props : ∀ c, c < 256 →
    ¬ 38 ∈ queryEscapeByte c ∧ ¬ 59 ∈ queryEscapeByte c ∧ ¬ 61 ∈ queryEscapeByte c ∧
      queryEscapeByte c ≠ [] := by decide

theorem queryEscape_no_special : ∀ s : Str, ValidBytes s →
    ¬ 38 ∈ queryEscape s ∧ ¬ 59 ∈ queryEscape s ∧ ¬ 61 ∈ queryEscape s := by
  intro s hs
  induction s with
  | nil => simp [queryEscape]
  | cons c cs ih =>
    have hc := qeByte_props c (hs c (by simp))
    have ihs := ih fun x hx => hs x (by simp [hx])
    simp only [queryEscape, List.mem_append, not_or]
    exact ⟨⟨hc.1, ihs.1⟩, ⟨hc.2.1, ihs.2.1⟩, ⟨hc.2.2.1, ihs.2.2⟩⟩

theorem queryUnescape_cons_other {c : Nat} (h37 : c ≠ 37) (h43 : c ≠ 43) (t : Str) :
    queryUnescape (c :: t) = (queryUnescape t).map fun r => c :: r := by
  match t with
  | [] => simp [queryUnescape, h37, h43]
  | [x] => simp [queryUnescape, h37, h43]
  | x :: y :: zs => simp [queryUnescape, h37, h43]

theorem queryUnescape_cons_plus (t : Str) :
    queryUnescape (43 :: t) = (queryUnescape t).map fun r => 32 :: r := by
  match t with
  | [] => simp [queryUnescape]
  | [x] => simp [queryUnescape]
  | x :: y :: zs => simp [queryUnescape]

theorem queryUnescape_cons_percent {d1 d2 a b : Nat}
    (e1 : hexVal d1 = some a) (e2 : hexVal d2 = some b) (t : Str) :
    queryUnescape (37 :: d1 :: d2 :: t) = (queryUnescape t).map fun r => (16 * a + b) :: r := by
  simp [queryUnescape, e1, e2]

theorem queryUnescape_escape_append :
    ∀ s : Str, ValidBytes s → ∀ t r, queryUnescape t = some r →
      queryUnescape (queryEscape s ++ t) = some (s ++ r) := by
  intro s
  induction s with
  | nil =>
    intro _ t r h
    simpa [queryEscape] using h
  | cons c cs ih =>
    intro hv t r h
    have hc : c < 256 := hv c (by simp)
    have hcs : ValidBytes cs := fun x hx => hv x (by simp [hx])
    have ihr := ih hcs t r h
    by_cases hu : queryUnescapedByte c = true
    · have h37 : c ≠ 37 := by
        intro e; subst e; exact absurd hu (by decide)
      have h43 : c ≠ 43 := by
        intro e; subst e; exact absurd hu (by decide)
      simp [queryEscape, queryEscapeByte, hu, queryUnescape_cons_other h37 h43, ihr]
    · by_cases h32 : c = 32
      · subst h32
        simp [queryEscape, queryEscapeByte, hu, queryUnescape_cons_plus, ihr]
      · have d1 : hexVal (hexDigitUpper (c / 16)) = some (c / 16) :=
          hexVal_hexDigitUpper _ (by omega)
        have d2 : hexVal (hexDigitUpper (c % 16)) = some (c % 16) :=
          hexVal_hexDigitUpper _ (by omega)
        have hcc : 16 * (c / 16) + c % 16 = c := by omega
        have heq := queryUnescape_cons_percent d1 d2 (queryEscape cs ++ t)
        rw [hcc] at heq
        simp [queryEscape, queryEscapeByte, hu, h32, heq, ihr]

theorem queryUnescape_queryEscape {s : Str} (hs : ValidBytes s) :
    queryUnescape (queryEscape s) = some s := by
  simpa using queryUnescape_escape_append s hs [] [] rfl

/-! ### Splitting and joining of segments -/

theorem cutByte_append {c : Nat} : ∀ k v : Str, ¬ c ∈ k →
    cutByte c (k ++ c :: v) = (k, v, true) := by
  intro k
  induction k with
  | nil => intro v _; simp [cutByte]
  | cons a as ih =>
    intro v h
    have hac : ¬ a = c := by simp at h; exact fun e => h.1 e.symm
    have has : ¬ c ∈ as := by simp at h; exact h.2
    simp [cutByte, hac, ih v has]

theorem splitOnByte_not_mem {c : Nat} : ∀ s : Str, ¬ c ∈ s → splitOnByte c s = [s] := by
  intro s
  induction s with
  | nil => intro _; rfl
  | cons a as ih =>
    intro h
    have hac : ¬ a = c := by simp at h; exact fun e => h.1 e.symm
    have has : ¬ c ∈ as := by simp at h; exact h.2
    simp [splitOnByte, hac, ih has]

theorem splitOnByte_append {c : Nat} : ∀ s t : Str, ¬ c ∈ s →
    splitOnByte c (s ++ c :: t) = s :: splitOnByte c t := by
  intro s
  induction s with
  | nil => intro t _; simp [splitOnByte]
  | cons a as ih =>
    intro t h
    have hac : ¬ a = c := by simp at h; exact fun e => h.1 e.symm
    have has : ¬ c ∈ as := by simp at h; exact h.2
    simp [splitOnByte, hac, ih t has]

theorem splitOnByte_joinSep {c : Nat} : ∀ segs : List Str, segs ≠ [] →
    (∀ s ∈ segs, ¬ c ∈ s) → splitOnByte c (joinSep [c] segs) = segs := by
  intro segs
  induction segs with
  | nil => intro h; exact absurd rfl h
  | cons x xs ih =>
    intro _ h
    match xs with
    | [] => exact splitOnByte_not_mem x (h x (by simp))
    | y :: ys =>
      have hx : ¬ c ∈ x := h x (by simp)
      have hrest : ∀ s ∈ y :: ys, ¬ c ∈ s := fun s hs => h s (by simp [List.mem_cons] at hs ⊢; tauto)
      have : joinSep [c] (x :: y :: ys) = x ++ c :: joinSep [c] (y :: ys) := by
        simp [joinSep]
      rw [this, splitOnByte_append x _ hx, ih (by simp) hrest]

/-! ### Decoding an encoded pair list -/

theorem decodeSegment_encodePair {p : Str × Str} (h1 : ValidBytes p.1) (h2 : ValidBytes p.2) :
    decodeSegment (encodePair p) = some p := by
  have h61 : ¬ 61 ∈ queryEscape p.1 := (queryEscape_no_special p.1 h1).2.2
  unfold decodeSegment encodePair
  rw [cutByte_append _ _ h61]
  simp [queryUnescape_queryEscape h1, queryUnescape_queryEscape h2]

theorem encodePair_no38 {p : Str × Str} (h1 : ValidBytes p.1) (h2 : ValidBytes p.2) :
    ¬ 38 ∈ encodePair p := by
  have n1 := (queryEscape_no_special p.1 h1).1
  have n2 := (queryEscape_no_special p.2 h2).1
  simp [encodePair, List.mem_append]
  tauto

theorem encodePair_no59 {p : Str × Str} (h1 : ValidBytes p.1) (h2 : ValidBytes p.2) :
    ¬ 59 ∈ encodePair p := by
  have n1 := (queryEscape_no_special p.1 h1).2.1
  have n2 := (queryEscape_no_special p.2 h2).2.1
  simp [encodePair, List.mem_append]
  tauto

theorem encodePair_ne_nil (p : Str × Str) : encodePair p ≠ [] := by
  simp [encodePair]

theorem decodeSegs_map_encodePair : ∀ l : List (Str × Str),
    (∀ p ∈ l, ValidBytes p.1 ∧ ValidBytes p.2) →
    decodeSegs (l.map encodePair) = some l := by
  intro l
  induction l with
  | nil => intro _; rfl
  | cons p ps ih =>
    intro h
    have hp := h p (by simp)
    have hps : ∀ q ∈ ps, ValidBytes q.1 ∧ ValidBytes q.2 := fun q hq => h q (by simp [hq])
    have h59 : ((encodePair p).any fun c => c == 59) = false := by
      rw [List.any_eq_false]
      intro x hx
      simp only [beq_iff_eq]
      intro e; subst e
      exact encodePair_no59 hp.1 hp.2 hx
    simp [decodeSegs, encodePair_ne_nil p, h59,
      decodeSegment_encodePair hp.1 hp.2, ih hps]

theorem decodeQuery_joinSep (l : List (Str × Str))
    (h : ∀ p ∈ l, ValidBytes p.1 ∧ ValidBytes p.2) :
    decodeQuery (joinSep [38] (l.map encodePair)) = some l := by
  match l with
  | [] => rfl
  | p :: ps =>
    unfold decodeQuery
    rw [splitOnByte_joinSep ((p :: ps).map encodePair) (by simp)]
    · exact decodeSegs_map_encodePair _ h
    · intro s hs
      simp only [List.mem_map] at hs
      obtain ⟨q, hq, rfl⟩ := hs
      exact encodePair_no38 (h q hq).1 (h q hq).2

/-! ### Permutation facts about sorting and flattening -/

theorem insertByKey_perm (p : Str × List Str) : ∀ l : Values, List.Perm (insertByKey p l) (p :: l) := by
  intro l
  induction l with
  | nil => exact List.Perm.refl _
  | cons q qs ih =>
    by_cases h : lexLt q.1 p.1 = true
    · simp only [insertByKey, h, if_true]
      exact (ih.cons q).trans (List.Perm.swap p q qs)
    · simp only [insertByKey, h, if_false]
      exact List.Perm.refl _

theorem sortValues_perm : ∀ v : Values, List.Perm (sortValues v) v := by
  intro v
  induction v with
  | nil => exact List.Perm.refl _
  | cons p ps ih => exact (insertByKey_perm p (sortValues ps)).trans (ih.cons p)

theorem flatPairs_eq_flatMap : ∀ v : Values,
    flatPairs v = v.flatMap fun e => e.2.map fun x => (e.1, x) := by
  intro v
  induction v with
  | nil => rfl
  | cons p ps ih => simp [flatPairs, ih]

theorem flatPairs_perm {v w : Values} (h : List.Perm v w) : List.Perm (flatPairs v) (flatPairs w) := by
  rw [flatPairs_eq_flatMap, flatPairs_eq_flatMap]
  exact h.flatMap_right _

theorem mem_flatPairs {p : Str × Str} : ∀ w : Values,
    p ∈ flatPairs w ↔ ∃ e ∈ w, e.1 = p.1 ∧ p.2 ∈ e.2 := by
  intro w
  induction w with
  | nil => simp [flatPairs]
  | cons q qs ih =>
    simp only [flatPairs, List.mem_append, List.mem_map, ih, List.mem_cons]
    constructor
    · rintro (⟨x, hx, rfl⟩ | ⟨e, he, h1, h2⟩)
      · exact ⟨q, Or.inl rfl, rfl, hx⟩
      · exact ⟨e, Or.inr he, h1, h2⟩
    · rintro ⟨e, (rfl | he), h1, h2⟩
      · left
        exact ⟨p.2, h2, by rw [h1]⟩
      · right
        exact ⟨e, he, h1, h2⟩

/-! ### The decode of an encoded Values map -/

theorem decodeQuery_encodeValues {v : Values} (hv : ValidValues v) :
    decodeQuery (encodeValues v) = some (flatPairs (sortValues v)) := by
  apply decodeQuery_joinSep
  intro p hp
  rw [mem_flatPairs] at hp
  obtain ⟨e, he, h1, h2⟩ := hp
  have hev := hv e ((sortValues_perm v).mem_iff.mp he)
  exact ⟨h1 ▸ hev.1, hev.2 p.2 h2⟩

/-! ### Validity of the decimal rendering, and facts about valuesSet -/

theorem natDecimalAux_valid : ∀ f n, ValidBytes (natDecimalAux f n) := by
  intro f
  induction f with
  | zero => intro n c hc; simp [natDecimalAux] at hc
  | succ f ih =>
    intro n
    by_cases h : n < 10
    · intro c hc
      simp [natDecimalAux, h] at hc
      omega
    · simp only [natDecimalAux, h, if_false]
      intro c hc
      rcases List.mem_append.mp hc with h1 | h1
      · exact ih (n / 10) c h1
      · simp at h1
        omega

theorem itoa_valid (i : Int) : ValidBytes (itoa i) := by
  unfold itoa natDecimal
  by_cases h : i < 0
  · simp only [h, if_true]
    intro c hc
    rcases List.mem_cons.mp hc with h1 | h1
    · omega
    · exact natDecimalAux_valid _ _ c h1
  · simp only [h, if_false]
    exact natDecimalAux_valid _ _

theorem valuesSet_valid {d : Values} (hv : ValidValues d) {k x : Str}
    (hk : ValidBytes k) (hx : ValidBytes x) : ValidValues (valuesSet d k x) := by
  intro p hp
  rcases List.mem_append.mp hp with h1 | h1
  · exact hv p (List.mem_of_mem_filter h1)
  · simp at h1
    subst h1
    exact ⟨hk, by simpa using hx⟩

theorem flatPairs_append : ∀ v w : Values, flatPairs (v ++ w) = flatPairs v ++ flatPairs w := by
  intro v w
  induction v with
  | nil => rfl
  | cons p ps ih => simp [flatPairs, ih]

theorem filter_flatPairs (w : Values) (k : Str) :
    (flatPairs w).filter (fun p => p.1 == k) = flatPairs (w.filter fun e => e.1 == k) := by
  induction w with
  | nil => rfl
  | cons e es ih =>
    by_cases h : (e.1 == k) = true
    · have hmap : (e.2.map fun x => (e.1, x)).filter (fun p => p.1 == k) =
          e.2.map fun x => (e.1, x) := by
        rw [List.filter_map]
        have hf : ((fun p : Str × Str => p.1 == k) ∘ fun x => (e.1, x)) = fun _ => true := by
          funext x; simp [h]
        rw [hf, List.filter_true]
      simp only [flatPairs, List.filter_append, hmap, ih, List.filter_cons, h, if_true]
    · rw [Bool.not_eq_true] at h
      have hmap : (e.2.map fun x => (e.1, x)).filter (fun p => p.1 == k) = [] := by
        rw [List.filter_map]
        have hf : ((fun p : Str × Str => p.1 == k) ∘ fun x => (e.1, x)) = fun _ => false := by
          funext x; simp [h]
        rw [hf, List.filter_false]
        rfl
      simp only [flatPairs, List.filter_append, hmap, ih, List.filter_cons, h, List.nil_append,
        if_false, Bool.false_eq_true]

/-! ### Userinfo encoding of safe keys -/

theorem userinfoEscape_unescaped : ∀ key : Str, (∀ c ∈ key, userinfoUnescaped c = true) →
    key.flatMap userinfoEscapeByte = key := by
  intro key h
  induction key with
  | nil => rfl
  | cons c cs ih =>
    simp only [List.flatMap_cons, userinfoEscapeByte, h c (by simp), if_true]
    rw [ih fun x hx => h x (by simp [hx])]
    rfl

/-! ### The claims -/

/-- C1 (amended): buildRequest sets the Authorization header to "Basic " plus
base64 of the percent-encoded userinfo of the API key followed by a colon;
whenever the key consists only of bytes the userinfo encoding leaves
unescaped (alphanumerics, marks, and the safe reserved bytes), this equals
"Basic " + base64(key + ":"), for every endpoint and payload. -/
theorem c1_authorization (key endpoint : Str) (data : Option Values)
    (h : ∀ c ∈ key, userinfoUnescaped c = true) :
    (buildRequest key endpoint data).authorization =
      bytes "Basic " ++ base64Encode (key ++ [58]) := by
  have he := userinfoEscape_unescaped key h
  cases data <;> simp [buildRequest, userinfoString, he]

/-- C1 counterexample: for the API key a@b the Authorization header is not
"Basic " + base64(key + ":"), because the at sign is percent-escaped before
the base64 step. -/
theorem c1_authorization_cex :
    (buildRequest (bytes "a@b") (bytes "/devices") none).authorization ≠
      bytes "Basic " ++ base64Encode (bytes "a@b" ++ [58]) := by decide

/-- C1 witness: a plain alphanumeric key gets the header the claim states. -/
theorem c1_authorization_witness :
    (buildRequest (bytes "apikey123") (bytes "/devices") none).authorization =
      bytes "Basic " ++ base64Encode (bytes "apikey123" ++ [58]) :=
  c1_authorization (bytes "apikey123") (bytes "/devices") none (by decide)

/-- C2 (amended): with a response in hand, Devices and Push fail with an
APIError carrying the status text on every status other than exactly 200;
Push succeeds iff the status is 200, and Devices succeeds iff the status is
200 and the body decodes. Non-200 success codes are rejected too. -/
theorem c2_status_handling (status : Nat) (statusText : Str) (b : DevBody) :
    (status ≠ 200 →
      Devices (.response status statusText b) = (none, some (.api statusText)) ∧
      pushOutcome (.response status statusText) = some (.api statusText)) ∧
    (pushOutcome (.response status statusText) = none ↔ status = 200) ∧
    ((Devices (.response status statusText b)).2 = none ↔
      status = 200 ∧ ∃ r, b = DevBody.wellFormed r) := by
  by_cases h : status = 200
  · subst h
    cases b <;> simp [Devices, pushOutcome]
  · cases b <;> simp [Devices, pushOutcome, h]

/-- C2 counterexample: 201 is a success (2xx) status, yet both Devices and
Push reject it with an APIError, refuting success iff 2xx. -/
theorem c2_status_handling_cex :
    (200 ≤ 201 ∧ 201 < 300) ∧
    (Devices (.response 201 (bytes "201 Created") (.wellFormed ⟨[], []⟩))).2 ≠ none ∧
    pushOutcome (.response 201 (bytes "201 Created")) ≠ none := by decide

/-- C2 witness: a 404 response makes both calls fail with the status text. -/
theorem c2_status_handling_witness :
    Devices (.response 404 (bytes "404 Not Found") (.wellFormed ⟨[], []⟩)) =
      (none, some (.api (bytes "404 Not Found"))) ∧
    pushOutcome (.response 404 (bytes "404 Not Found")) =
      some (.api (bytes "404 Not Found")) :=
  (c2_status_handling 404 (bytes "404 Not Found") (.wellFormed ⟨[], []⟩)).1 (by decide)

/-- C4: on a well-formed devices response, Devices returns the owned list
concatenated with the shared list, in order, with no de-duplication (counts
add up), and two empty lists give the empty sequence. -/
theorem c4_devices_concatenation (statusText : Str) (d s : List Device) :
    Devices (.response 200 statusText (.wellFormed ⟨d, s⟩)) = (some (d ++ s), none) ∧
    (∀ dev : Device, (d ++ s).count dev = d.count dev + s.count dev) ∧
    Devices (.response 200 statusText (.wellFormed ⟨[], []⟩)) = (some [], none) := by
  refine ⟨by simp [Devices], fun dev => List.count_append dev d s, by simp [Devices]⟩

/-- C7: every ToAll convenience variant is the corresponding targeted variant
called with the sentinel device id 0, so it builds the same request. -/
theorem c7_toall_variants (key title body name address u : Str) (items : List Str)
    (data : Option Values) :
    PushNoteToAll key title body = PushNote key 0 title body ∧
    PushAddressToAll key name address = PushAddress key 0 name address ∧
    PushListToAll key title items = PushList key 0 title items ∧
    PushLinkToAll key title u = PushLink key 0 title u ∧
    PushToAll key data = Push key 0 data :=
  ⟨rfl, rfl, rfl, rfl, rfl⟩

/-- C8: whenever Devices returns an error, the device slice it returns is
nil: no partial results accompany an error. -/
theorem c8_no_partial_results (h : DevicesHttp) (he : (Devices h).2 ≠ none) :
    (Devices h).1 = none := by
  match h with
  | .transportFail e => rfl
  | .response st txt b =>
    by_cases hst : st = 200
    · subst hst
      cases b with
      | malformed e => simp [Devices]
      | wellFormed r => simp [Devices] at he
    · simp [Devices, hst]

/-- C8 witness: a transport failure yields a nil device slice. -/
theorem c8_no_partial_results_witness :
    (Devices (.transportFail (bytes "connection refused"))).1 = none :=
  c8_no_partial_results (.transportFail (bytes "connection refused")) (by decide)

/-- C10: Push with a nil data map panics for every nonzero device id (the
write into the nil map), and for device id 0 it sends a bodyless GET to the
pushes endpoint rather than a POST. -/
theorem c10_nil_data (key : Str) (deviceId : Int) :
    (deviceId ≠ 0 → Push key deviceId none = none) ∧
    Push key 0 none = some (buildRequest key (bytes "/pushes") none) ∧
    (buildRequest key (bytes "/pushes") none).method = bytes "GET" ∧
    (buildRequest key (bytes "/pushes") none).body = none := by
  refine ⟨fun h => by simp [Push, h], by simp [Push], rfl, rfl⟩

/-- C10 witness: Push with device id 5 and nil data panics. -/
theorem c10_nil_data_witness : Push (bytes "k") 5 none = none :=
  (c10_nil_data (bytes "k") 5).1 (by decide)

/-! ### Helpers about the pairs of a sorted map -/

theorem filter_values_valuesSet (d : Values) (k x : Str) :
    (valuesSet d k x).filter (fun e => e.1 == k) = [(k, [x])] := by
  simp only [valuesSet, List.filter_append, List.filter_filter]
  have h1 : (d.filter fun a => ((a.1 == k) && !(a.1 == k))) = [] := by
    rw [List.filter_eq_nil_iff]
    intro a _
    cases a.1 == k <;> simp
  rw [h1]
  simp [List.filter]

theorem filter_flatPairs_sort_unique {w : Values} {k : Str} {xs : List Str}
    (hw : w.filter (fun e => e.1 == k) = [(k, xs)]) :
    ((flatPairs (sortValues w)).filter fun p => p.1 == k) = xs.map fun x => (k, x) := by
  have hperm := (sortValues_perm w).filter (fun e => e.1 == k)
  rw [hw] at hperm
  have hsf : (sortValues w).filter (fun e => e.1 == k) = [(k, xs)] :=
    List.perm_singleton.mp hperm
  rw [filter_flatPairs, hsf]
  simp [flatPairs]

theorem mem_flatPairs_sort {w : Values} {e : Str × List Str} {x : Str}
    (he : e ∈ w) (hx : x ∈ e.2) : (e.1, x) ∈ flatPairs (sortValues w) := by
  rw [mem_flatPairs]
  exact ⟨e, (sortValues_perm w).mem_iff.mpr he, rfl, hx⟩

theorem flatPairs_sort_keys {w : Values} {k : Str}
    (h : ∀ e ∈ w, e.1 ≠ k) : ∀ p ∈ flatPairs (sortValues w), p.1 ≠ k := by
  intro p hp
  rw [mem_flatPairs] at hp
  obtain ⟨e, he, h1, _⟩ := hp
  exact h1 ▸ h e ((sortValues_perm w).mem_iff.mp he)

/-- C5: buildRequest with absent form data yields a GET with no body; with
form data present it yields a POST with the form content type whose body,
parsed back as a query string, is the same key/value multiset (a
permutation of the pairs) as the input data. -/
theorem c5_build_request_shape (key endpoint : Str) (v : Values) (hv : ValidValues v) :
    (buildRequest key endpoint none).method = bytes "GET" ∧
    (buildRequest key endpoint none).body = none ∧
    (buildRequest key endpoint (some v)).method = bytes "POST" ∧
    (buildRequest key endpoint (some v)).contentType =
      some (bytes "application/x-www-form-urlencoded") ∧
    (buildRequest key endpoint (some v)).body = some (encodeValues v) ∧
    ∃ l, decodeQuery (encodeValues v) = some l ∧ List.Perm l (flatPairs v) :=
  ⟨rfl, rfl, rfl, rfl, rfl, flatPairs (sortValues v),
    decodeQuery_encodeValues hv, flatPairs_perm (sortValues_perm v)⟩

/-- C5 witness at a concrete map with an escaping-relevant value. -/
theorem c5_build_request_shape_witness :
    (buildRequest (bytes "k") (bytes "/pushes") none).method = bytes "GET" ∧
    (buildRequest (bytes "k") (bytes "/pushes") none).body = none ∧
    (buildRequest (bytes "k") (bytes "/pushes") (some [(bytes "a", [bytes "b c"])])).method =
      bytes "POST" ∧
    (buildRequest (bytes "k") (bytes "/pushes") (some [(bytes "a", [bytes "b c"])])).contentType =
      some (bytes "application/x-www-form-urlencoded") ∧
    (buildRequest (bytes "k") (bytes "/pushes") (some [(bytes "a", [bytes "b c"])])).body =
      some (encodeValues [(bytes "a", [bytes "b c"])]) ∧
    ∃ l, decodeQuery (encodeValues [(bytes "a", [bytes "b c"])]) = some l ∧
      List.Perm l (flatPairs [(bytes "a", [bytes "b c"])]) :=
  c5_build_request_shape (bytes "k") (bytes "/pushes") [(bytes "a", [bytes "b c"])] (by decide)

/-- C9: with a nonzero device id, Push writes device_id into the very map the
caller handed it, so after the call the caller's map holds the target, and a
later broadcast Push reusing that map still sends the previous device_id. -/
theorem c9_push_mutates_data (deviceId : Int) (d : Values)
    (h : deviceId ≠ 0) (hv : ValidValues d) :
    pushDataAfter deviceId d = valuesSet d (bytes "device_id") (itoa deviceId) ∧
    (bytes "device_id", [itoa deviceId]) ∈ pushDataAfter deviceId d ∧
    ∃ l, decodeQuery (encodeValues (goAugment 0 (pushDataAfter deviceId d))) = some l ∧
      (bytes "device_id", itoa deviceId) ∈ l := by
  have h1 : pushDataAfter deviceId d = valuesSet d (bytes "device_id") (itoa deviceId) := by
    simp [pushDataAfter, goAugment, h]
  have hvk : ValidBytes (bytes "device_id") := by decide
  have hv2 : ValidValues (valuesSet d (bytes "device_id") (itoa deviceId)) :=
    valuesSet_valid hv hvk (itoa_valid deviceId)
  refine ⟨h1, by rw [h1]; simp [valuesSet], ?_⟩
  rw [h1]
  refine ⟨flatPairs (sortValues (valuesSet d (bytes "device_id") (itoa deviceId))),
    by simpa [goAugment] using decodeQuery_encodeValues hv2, ?_⟩
  exact mem_flatPairs_sort (e := (bytes "device_id", [itoa deviceId]))
    (by simp [valuesSet]) (by simp)

/-- C9 witness at device id 7 over a note payload. -/
theorem c9_push_mutates_data_witness :
    pushDataAfter 7 [(bytes "type", [bytes "note"])] =
      valuesSet [(bytes "type", [bytes "note"])] (bytes "device_id") (itoa 7) ∧
    (bytes "device_id", [itoa 7]) ∈ pushDataAfter 7 [(bytes "type", [bytes "note"])] ∧
    ∃ l, decodeQuery (encodeValues
        (goAugment 0 (pushDataAfter 7 [(bytes "type", [bytes "note"])]))) = some l ∧
      (bytes "device_id", itoa 7) ∈ l :=
  c9_push_mutates_data 7 [(bytes "type", [bytes "note"])] (by decide) (by decide)

/-- C3 (amended): for a payload with no preexisting device_id entry, the body
Push produces has no device_id pair when the device id is the sentinel 0
(Push leaves the payload untouched then), and exactly the single pair
device_id = decimal string of the id when the id is nonzero. -/
theorem c3_device_id (key : Str) (deviceId : Int) (d : Values)
    (hv : ValidValues d) (hnk : ∀ p ∈ d, p.1 ≠ bytes "device_id") :
    Push key deviceId (some d) =
      some (buildRequest key (bytes "/pushes") (some (goAugment deviceId d))) ∧
    ∃ l, decodeQuery (encodeValues (goAugment deviceId d)) = some l ∧
      (deviceId = 0 → ∀ p ∈ l, p.1 ≠ bytes "device_id") ∧
      (deviceId ≠ 0 →
        l.filter (fun p => p.1 == bytes "device_id") =
          [(bytes "device_id", itoa deviceId)]) := by
  refine ⟨rfl, ?_⟩
  by_cases h0 : deviceId = 0
  · subst h0
    refine ⟨flatPairs (sortValues d),
      by simpa [goAugment] using decodeQuery_encodeValues hv,
      fun _ => flatPairs_sort_keys hnk, fun hne => absurd rfl hne⟩
  · have hvk : ValidBytes (bytes "device_id") := by decide
    have hv2 : ValidValues (valuesSet d (bytes "device_id") (itoa deviceId)) :=
      valuesSet_valid hv hvk (itoa_valid deviceId)
    refine ⟨flatPairs (sortValues (valuesSet d (bytes "device_id") (itoa deviceId))),
      by simpa [goAugment, h0] using decodeQuery_encodeValues hv2,
      fun h => absurd h h0, fun _ => ?_⟩
    rw [filter_flatPairs_sort_unique (filter_values_valuesSet d _ _)]
    rfl

/-- C3 counterexample: a payload already holding device_id is sent verbatim
by Push with the sentinel id 0, so the body does contain a device_id key. -/
theorem c3_device_id_cex :
    (Push (bytes "k") 0 (some [(bytes "device_id", [bytes "9"])])).map (fun r => r.body) =
      some (some (bytes "device_id=9")) ∧
    decodeQuery (bytes "device_id=9") = some [(bytes "device_id", bytes "9")] := by decide

/-- C3 witness for a note payload and device id 42. -/
theorem c3_device_id_witness :
    Push (bytes "k") 42 (some [(bytes "type", [bytes "note"])]) =
      some (buildRequest (bytes "k") (bytes "/pushes")
        (some (goAugment 42 [(bytes "type", [bytes "note"])]))) ∧
    ∃ l, decodeQuery (encodeValues (goAugment 42 [(bytes "type", [bytes "note"])])) = some l ∧
      ((42 : Int) = 0 → ∀ p ∈ l, p.1 ≠ bytes "device_id") ∧
      ((42 : Int) ≠ 0 →
        l.filter (fun p => p.1 == bytes "device_id") = [(bytes "device_id", itoa 42)]) :=
  c3_device_id (bytes "k") 42 [(bytes "type", [bytes "note"])] (by decide) (by decide)

/-- C6: the body PushList produces holds one items pair per list element in
the original order, a type=list pair, a title pair, and, for a nonzero
device id, the device_id pair; for the sentinel id no device_id key at all. -/
theorem c6_pushlist_body (key : Str) (deviceId : Int) (title : Str) (items : List Str)
    (ht : ValidBytes title) (hi : ∀ x ∈ items, ValidBytes x) :
    PushList key deviceId title items =
      some (buildRequest key (bytes "/pushes") (some (goAugment deviceId
        [(bytes "type", [bytes "list"]), (bytes "title", [title]),
          (bytes "items", items)]))) ∧
    ∃ l, decodeQuery (encodeValues (goAugment deviceId
        [(bytes "type", [bytes "list"]), (bytes "title", [title]),
          (bytes "items", items)])) = some l ∧
      (l.filter fun p => p.1 == bytes "items").map (fun p => p.2) = items ∧
      (bytes "type", bytes "list") ∈ l ∧
      (bytes "title", title) ∈ l ∧
      (deviceId ≠ 0 → (bytes "device_id", itoa deviceId) ∈ l) ∧
      (deviceId = 0 → ∀ p ∈ l, p.1 ≠ bytes "device_id") := by
  have hvv : ValidValues
      [(bytes "type", [bytes "list"]), (bytes "title", [title]), (bytes "items", items)] := by
    intro p hp
    simp only [List.mem_cons, List.not_mem_nil, or_false] at hp
    rcases hp with rfl | rfl | rfl
    · exact ⟨by decide, by decide⟩
    · refine ⟨by show ValidBytes (bytes "title"); decide, ?_⟩
      intro x hx
      simp only [List.mem_singleton] at hx
      subst hx
      exact ht
    · exact ⟨by show ValidBytes (bytes "items"); decide, hi⟩
  have k1 : (bytes "type" == bytes "items") = false := by decide
  have k2 : (bytes "title" == bytes "items") = false := by decide
  have k3 : (bytes "items" == bytes "items") = true := by decide
  have k4 : (bytes "device_id" == bytes "items") = false := by decide
  refine ⟨rfl, ?_⟩
  by_cases h0 : deviceId = 0
  · subst h0
    refine ⟨flatPairs (sortValues
        [(bytes "type", [bytes "list"]), (bytes "title", [title]), (bytes "items", items)]),
      by simpa [goAugment] using decodeQuery_encodeValues hvv, ?_, ?_, ?_,
      fun h => absurd rfl h, fun _ => flatPairs_sort_keys ?_⟩
    · have hf : ([(bytes "type", [bytes "list"]), (bytes "title", [title]),
          (bytes "items", items)].filter fun e => e.1 == bytes "items") =
          [(bytes "items", items)] := by
        simp [List.filter, k1, k2, k3]
      rw [filter_flatPairs_sort_unique hf]
      simp
    · exact mem_flatPairs_sort (e := (bytes "type", [bytes "list"])) (by simp) (by simp)
    · exact mem_flatPairs_sort (e := (bytes "title", [title])) (by simp) (by simp)
    · intro e he
      simp only [List.mem_cons, List.not_mem_nil, or_false] at he
      rcases he with rfl | rfl | rfl
      · show bytes "type" ≠ bytes "device_id"
        decide
      · show bytes "title" ≠ bytes "device_id"
        decide
      · show bytes "items" ≠ bytes "device_id"
        decide
  · have hvk : ValidBytes (bytes "device_id") := by decide
    have hv2 : ValidValues (valuesSet
        [(bytes "type", [bytes "list"]), (bytes "title", [title]), (bytes "items", items)]
        (bytes "device_id") (itoa deviceId)) :=
      valuesSet_valid hvv hvk (itoa_valid deviceId)
    refine ⟨flatPairs (sortValues (valuesSet
        [(bytes "type", [bytes "list"]), (bytes "title", [title]), (bytes "items", items)]
        (bytes "device_id") (itoa deviceId))),
      by simpa [goAugment, h0] using decodeQuery_encodeValues hv2, ?_, ?_, ?_,
      fun _ => ?_, fun h => absurd h h0⟩
    · have hf : ((valuesSet
          [(bytes "type", [bytes "list"]), (bytes "title", [title]), (bytes "items", items)]
          (bytes "device_id") (itoa deviceId)).filter fun e => e.1 == bytes "items") =
          [(bytes "items", items)] := by
        simp [valuesSet, List.filter, k1, k2, k3, k4]
      rw [filter_flatPairs_sort_unique hf]
      simp
    · refine mem_flatPairs_sort (e := (bytes "type", [bytes "list"])) ?_ (by simp)
      simp only [valuesSet, List.mem_append]
      left
      rw [List.mem_filter]
      exact ⟨by simp, by decide⟩
    · refine mem_flatPairs_sort (e := (bytes "title", [title])) ?_ (by simp)
      simp only [valuesSet, List.mem_append]
      left
      rw [List.mem_filter]
      refine ⟨by simp, ?_⟩
      show (!(bytes "title" == bytes "device_id")) = true
      decide
    · refine mem_flatPairs_sort (e := (bytes "device_id", [itoa deviceId])) ?_ (by simp)
      simp [valuesSet]

/-- C6 witness: the groceries example of the specification. -/
theorem c6_pushlist_body_witness :
    PushList (bytes "k") 5 (bytes "groceries") [bytes "milk", bytes "eggs"] =
      some (buildRequest (bytes "k") (bytes "/pushes") (some (goAugment 5
        [(bytes "type", [bytes "list"]), (bytes "title", [bytes "groceries"]),
          (bytes "items", [bytes "milk", bytes "eggs"])]))) ∧
    ∃ l, decodeQuery (encodeValues (goAugment 5
        [(bytes "type", [bytes "list"]), (bytes "title", [bytes "groceries"]),
          (bytes "items", [bytes "milk", bytes "eggs"])])) = some l ∧
      (l.filter fun p => p.1 == bytes "items").map (fun p => p.2) =
        [bytes "milk", bytes "eggs"] ∧
      (bytes "type", bytes "list") ∈ l ∧
      (bytes "title", bytes "groceries") ∈ l ∧
      ((5 : Int) ≠ 0 → (bytes "device_id", itoa 5) ∈ l) ∧
      ((5 : Int) = 0 → ∀ p ∈ l, p.1 ≠ bytes "device_id") :=
  c6_pushlist_body (bytes "k") 5 (bytes "groceries") [bytes "milk", bytes "eggs"]
    (by decide) (by decide)
